import Mathlib

/-!
Verification of the persistent memory engine of the Docy_Search repository
(`memory/sqlite_memory.py`, `memory/memory_manager.py`, and the refactored
`docy_search/memory/sqlite_memory.py`).

The SQLite table `memories` is modelled as a `List MemRow`; each SQL
statement of the source becomes an explicit Lean function on that list.
Timestamps (`DATETIME`) are modelled as natural numbers counting seconds;
`CURRENT_TIMESTAMP` becomes an explicit `now : Nat` argument, and SQLite's
`datetime('now', '-N days')` becomes `now - N * 86400`.  The JSON
serialization of `embedding` and `metadata` is abstracted away: the
`embedding` column holds `Option (List ℝ)` directly and `metadata` holds an
opaque `Option String` blob.  Row ids assigned by `AUTOINCREMENT` become an
explicit `nextId` argument.  Embedding vectors are lists of real numbers
(the Python floats of `numpy`).
-/

namespace DocySearch

/-- One row of the `memories` table:
`(id PK, user_id, content, embedding, timestamp, metadata, category,
compressed BOOL, archived BOOL, access_count INT, last_accessed)`. -/
structure MemRow where
  id : Nat
  user_id : String
  content : String
  embedding : Option (List ℝ)
  timestamp : Nat
  metadata : Option String
  category : String
  compressed : Bool
  archived : Bool
  access_count : Nat
  last_accessed : Option Nat

/-- The `memories` table: one row per saved record, in insertion order. -/
abbrev MemDb := List MemRow

/-- Python truthiness of the optional embedding argument in
`json.dumps(embedding) if embedding else None`: both `None` and the empty
list serialize to SQL `NULL`. -/
def truthyEmbedding : Option (List ℝ) → Option (List ℝ)
  | some [] => none
  | e => e

/-- Python truthiness of the optional `category` filter argument
(`if category:`): `None` and the empty string both disable the filter.
Returns `true` when the row passes the (possibly absent) filter. -/
def categoryPasses (cat : Option String) (r : MemRow) : Bool :=
  match cat with
  | none => true
  | some c => if c = "" then true else r.category == c

/-- The `ORDER BY timestamp DESC` comparison: `a` precedes `b` when `a` is
at least as recent. -/
def byTimestampDesc (a b : MemRow) : Prop :=
  b.timestamp ≤ a.timestamp

instance : DecidableRel byTimestampDesc :=
  fun a b => Nat.decLe b.timestamp a.timestamp

instance : IsTotal MemRow byTimestampDesc :=
  ⟨fun a b => Nat.le_total b.timestamp a.timestamp⟩

instance : IsTrans MemRow byTimestampDesc :=
  ⟨fun _ _ _ hab hbc => Nat.le_trans hbc hab⟩

/-- Embeds `SELECT * FROM memories WHERE <p> ORDER BY timestamp DESC LIMIT <limit>`:
filter, sort most-recent-first, truncate. -/
def selectQuery (db : MemDb) (p : MemRow → Bool) (limit : Nat) : List MemRow :=
  ((db.filter p).insertionSort byTimestampDesc).take limit

namespace SQLiteMemory

/-- Embeds `SQLiteMemory.save_memory` (`memory/sqlite_memory.py:92`):
`INSERT INTO memories (user_id, content, embedding, metadata, category)`.
The new row takes the schema defaults `compressed=FALSE`, `archived=FALSE`,
`access_count=0`, `last_accessed=NULL`, `timestamp=CURRENT_TIMESTAMP`, and
the `AUTOINCREMENT` id `nextId`.  Returns the new table and `lastrowid`.
There is no argument validation. -/
def save_memory (db : MemDb) (user_id content : String)
    (embedding : Option (List ℝ)) (metadata : Option String)
    (category : String) (nextId now : Nat) : MemDb × Nat :=
  (db ++ [{ id := nextId, user_id := user_id, content := content,
            embedding := truthyEmbedding embedding, timestamp := now,
            metadata := metadata, category := category,
            compressed := false, archived := false,
            access_count := 0, last_accessed := none }], nextId)

/-- Embeds `SQLiteMemory.get_memories` (`memory/sqlite_memory.py:126`), the legacy
blocking form: `SELECT * FROM memories WHERE user_id = ?` plus the optional
category filter, `ORDER BY timestamp DESC LIMIT ?`.  Note: no
`archived = FALSE` condition appears in this query. -/
def get_memories (db : MemDb) (user_id : String) (limit : Nat)
    (category : Option String) : List MemRow :=
  selectQuery db (fun r => r.user_id == user_id && categoryPasses category r) limit

/-- Embeds `SQLiteMemory.clear_user_memories` (`memory/sqlite_memory.py:182`):
`DELETE FROM memories WHERE user_id = ?`; returns the new table and
`cursor.rowcount`, the number of deleted rows. -/
def clear_user_memories (db : MemDb) (user_id : String) : MemDb × Nat :=
  (db.filter (fun r => !(r.user_id == user_id)),
   (db.filter (fun r => r.user_id == user_id)).length)

end SQLiteMemory

namespace DocySQLiteMemory

/-- Embeds `SQLiteMemory.get_memories` of the refactored store
(`docy_search/memory/sqlite_memory.py:102`): same query as the legacy form
but with the `AND archived = FALSE` condition, and no access tracking. -/
def get_memories (db : MemDb) (user_id : String) (limit : Nat)
    (category : Option String) : List MemRow :=
  selectQuery db
    (fun r => r.user_id == user_id && !r.archived && categoryPasses category r)
    limit

end DocySQLiteMemory

namespace AsyncSQLiteMemory

/-- Embeds `AsyncSQLiteMemory.save_memory` (`memory/sqlite_memory.py:268`): the
same `INSERT` as the blocking form. -/
def save_memory (db : MemDb) (user_id content : String)
    (embedding : Option (List ℝ)) (metadata : Option String)
    (category : String) (nextId now : Nat) : MemDb × Nat :=
  (db ++ [{ id := nextId, user_id := user_id, content := content,
            embedding := truthyEmbedding embedding, timestamp := now,
            metadata := metadata, category := category,
            compressed := false, archived := false,
            access_count := 0, last_accessed := none }], nextId)

/-- The fetched rows of `AsyncSQLiteMemory.get_memories`
(`memory/sqlite_memory.py:302`): `SELECT * FROM memories WHERE user_id = ?
AND archived = FALSE` plus the optional category filter,
`ORDER BY timestamp DESC LIMIT ?`. -/
def fetched_rows (db : MemDb) (user_id : String) (limit : Nat)
    (category : Option String) : List MemRow :=
  selectQuery db
    (fun r => r.user_id == user_id && !r.archived && categoryPasses category r)
    limit

/-- Embeds `AsyncSQLiteMemory.get_memories` (`memory/sqlite_memory.py:302`):
fetches the rows, then runs the batched access-tracking update
`UPDATE memories SET access_count = access_count + 1,
last_accessed = CURRENT_TIMESTAMP WHERE id IN (...)` on the fetched ids.
Returns the fetched rows (as read, before the update) and the new table. -/
def get_memories (db : MemDb) (user_id : String) (limit : Nat)
    (category : Option String) (now : Nat) : List MemRow × MemDb :=
  let rows := fetched_rows db user_id limit category
  let ids := rows.map (·.id)
  (rows,
   db.map (fun r =>
     if ids.contains r.id then
       { r with access_count := r.access_count + 1, last_accessed := some now }
     else r))

/-- Embeds `AsyncSQLiteMemory.clear_user_memories` (`memory/sqlite_memory.py:367`):
same `DELETE` as the blocking form. -/
def clear_user_memories (db : MemDb) (user_id : String) : MemDb × Nat :=
  (db.filter (fun r => !(r.user_id == user_id)),
   (db.filter (fun r => r.user_id == user_id)).length)

/-- The `WHERE` condition of `compress_old_memories`
(`memory/sqlite_memory.py:384`): `compressed = FALSE AND
datetime('now', '-N days') > timestamp AND access_count < 5`. -/
def compressCond (now days_threshold : Nat) (r : MemRow) : Bool :=
  !r.compressed && decide (r.timestamp < now - days_threshold * 86400)
    && decide (r.access_count < 5)

/-- The `SET` clause of `compress_old_memories` applied to one matching
row: `compressed = TRUE, content = substr(content, 1, 500) ||
'...[compressed]'`. -/
def compressRow (now days_threshold : Nat) (r : MemRow) : MemRow :=
  if compressCond now days_threshold r then
    { r with compressed := true,
             content := r.content.take 500 ++ "...[compressed]" }
  else r

/-- Embeds `AsyncSQLiteMemory.compress_old_memories` (`memory/sqlite_memory.py:384`):
the `UPDATE` over the whole table; returns the new table and
`cursor.rowcount`, the number of rows matching the `WHERE` condition. -/
def compress_old_memories (db : MemDb) (now : Nat)
    (days_threshold : Nat) : MemDb × Nat :=
  (db.map (compressRow now days_threshold),
   (db.filter (compressCond now days_threshold)).length)

/-- The `WHERE` condition of `archive_old_memories`
(`memory/sqlite_memory.py:408`): `archived = FALSE AND
datetime('now', '-N days') > timestamp AND access_count < 2`. -/
def archiveCond (now days_threshold : Nat) (r : MemRow) : Bool :=
  !r.archived && decide (r.timestamp < now - days_threshold * 86400)
    && decide (r.access_count < 2)

/-- The `SET` clause of `archive_old_memories` applied to one matching
row: `archived = TRUE`. -/
def archiveRow (now days_threshold : Nat) (r : MemRow) : MemRow :=
  if archiveCond now days_threshold r then { r with archived := true } else r

/-- Embeds `AsyncSQLiteMemory.archive_old_memories` (`memory/sqlite_memory.py:408`):
the `UPDATE` over the whole table; returns the new table and the number of
rows matching the `WHERE` condition. -/
def archive_old_memories (db : MemDb) (now : Nat)
    (days_threshold : Nat) : MemDb × Nat :=
  (db.map (archiveRow now days_threshold),
   (db.filter (archiveCond now days_threshold)).length)

/-- Embeds `AsyncSQLiteMemory.get_memory_stats` (`memory/sqlite_memory.py:431`):
four `COUNT(*)` queries. -/
def get_memory_stats (db : MemDb) (user_id : String) :
    Nat × Nat × Nat × Nat :=
  ((db.filter (fun r => r.user_id == user_id)).length,
   (db.filter (fun r => r.user_id == user_id && !r.archived)).length,
   (db.filter (fun r => r.user_id == user_id && r.compressed)).length,
   (db.filter (fun r => r.user_id == user_id && r.archived)).length)

end AsyncSQLiteMemory

/-- Embeds `np.dot` on two equal-length vectors: the sum of pointwise products. -/
def dotp (a b : List ℝ) : ℝ :=
  (List.zipWith (· * ·) a b).sum

/-- Embeds `np.linalg.norm`: the Euclidean norm, `sqrt` of the sum of squares. -/
noncomputable def normOf (v : List ℝ) : ℝ :=
  Real.sqrt (dotp v v)

namespace MemoryManager

/-- Embeds `MemoryManager.calculate_similarity` (`memory/memory_manager.py:164`):
returns `0.0` when either list is empty (Python truthiness of
`not embedding1 or not embedding2`) or when either norm is zero, and the
cosine `dot / (norm1 * norm2)` otherwise. -/
noncomputable def calculate_similarity (embedding1 embedding2 : List ℝ) : ℝ :=
  if embedding1.isEmpty || embedding2.isEmpty then 0
  else
    let dot_product := dotp embedding1 embedding2
    let norm1 := normOf embedding1
    let norm2 := normOf embedding2
    if norm1 = 0 ∨ norm2 = 0 then 0
    else dot_product / (norm1 * norm2)

/-- The sort order of `find_similar_memories`:
`sort(key=lambda x: x['similarity_score'], reverse=True)`. -/
def bySimilarityDesc (a b : MemRow × ℝ) : Prop :=
  b.2 ≤ a.2

noncomputable instance : DecidableRel bySimilarityDesc :=
  fun a b => Real.decidableLE b.2 a.2

instance : IsTotal (MemRow × ℝ) bySimilarityDesc :=
  ⟨fun a b => le_total b.2 a.2⟩

instance : IsTrans (MemRow × ℝ) bySimilarityDesc :=
  ⟨fun _ _ _ hab hbc => le_trans hbc hab⟩

/-- Embeds `MemoryManager.find_similar_memories` (`memory/memory_manager.py:183`):
fetches `get_memories(user_id, limit=100)`, keeps rows with a (truthy)
embedding whose similarity to the query is `>= threshold`, pairing each
with its `similarity_score`, then sorts descending by score and truncates
to `limit`. -/
noncomputable def find_similar_memories (db : MemDb) (user_id : String)
    (query_embedding : List ℝ) (threshold : ℝ) (limit : Nat) :
    List (MemRow × ℝ) :=
  let all_memories := SQLiteMemory.get_memories db user_id 100 none
  let scored_memories := all_memories.filterMap (fun memory =>
    match memory.embedding with
    | none => none
    | some e =>
      if e.isEmpty then none
      else
        let similarity := calculate_similarity query_embedding e
        if threshold ≤ similarity then some (memory, similarity) else none)
  (scored_memories.insertionSort bySimilarityDesc).take limit

/-- The fixed sentinel returned by retrieval when no memories exist. -/
def noMemoriesSentinel : String := "No previous interactions found."

/-- Embeds `MemoryManager.retrieve_memories` (`memory/memory_manager.py:134`):
delegates to the blocking `get_memories`, returns the sentinel when the
result set is empty and otherwise the rows rendered as
`"[timestamp] content"` lines joined by newlines. -/
def retrieve_memories (db : MemDb) (user_id : String) (limit : Nat)
    (category : Option String) : String :=
  let memories := SQLiteMemory.get_memories db user_id limit category
  if memories.isEmpty then noMemoriesSentinel
  else
    String.intercalate "\n"
      (memories.map (fun mem =>
        "[" ++ toString mem.timestamp ++ "] " ++ mem.content))

/-- Embeds `MemoryManager.clear_user_memories` (`memory/memory_manager.py:214`):
delegates to the store. -/
def clear_user_memories (db : MemDb) (user_id : String) : MemDb × Nat :=
  SQLiteMemory.clear_user_memories db user_id

end MemoryManager

namespace AsyncMemoryManager

/-- One embedding attempt: the outcome of the provider call
`openai_client.embeddings.create` on try number `attempt` — `none` models a
raised exception, `some v` a returned vector.  The attempts are the only
non-determinism of the retry loop, so they are passed as an oracle. -/
abbrev AttemptOracle := Nat → Option (List ℝ)

/-- The `for attempt in range(max_retries)` loop of
`AsyncMemoryManager._generate_embedding_with_retry`
(`memory/memory_manager.py:293`), starting at try number `attempt`:
on success returns the vector; on the final failed attempt returns `none`;
otherwise sleeps `2 ** attempt` and retries.  Returns the result together
with the list of back-off sleeps performed, in order. -/
def retryLoop (oracle : AttemptOracle) (max_retries attempt : Nat) :
    Option (List ℝ) × List Nat :=
  if attempt < max_retries then
    match oracle attempt with
    | some v => (some v, [])
    | none =>
      if attempt = max_retries - 1 then (none, [])
      else
        let rest := retryLoop oracle max_retries (attempt + 1)
        (rest.1, 2 ^ attempt :: rest.2)
  else (none, [])
termination_by max_retries - attempt
decreasing_by omega

/-- Embeds `AsyncMemoryManager._generate_embedding_with_retry`
(`memory/memory_manager.py:293`) with its default `max_retries = 3`:
the loop started at attempt `0`. -/
def generate_embedding_with_retry (oracle : AttemptOracle)
    (max_retries : Nat := 3) : Option (List ℝ) × List Nat :=
  retryLoop oracle max_retries 0

/-- The `metadata['created_at'] = datetime.now().isoformat()` stamp of the
manager-level save; the opaque serialized metadata blob gains the creation
timestamp. -/
def metadataStamp (metadata : Option String) (now : Nat) : String :=
  metadata.getD "" ++ "created_at=" ++ toString now

/-- Embeds `AsyncMemoryManager.save_memory` (`memory/memory_manager.py:256`):
obtains the embedding from the retry loop (when a client is configured —
the oracle models the configured client), stamps `created_at` into the
metadata, and delegates to `AsyncSQLiteMemory.save_memory`. -/
def save_memory (db : MemDb) (user_id content : String)
    (oracle : AttemptOracle) (metadata : Option String)
    (category : String) (nextId now : Nat) : MemDb × Nat :=
  let embedding := (generate_embedding_with_retry oracle).1
  AsyncSQLiteMemory.save_memory db user_id content embedding
    (some (metadataStamp metadata now)) category nextId now

/-- Embeds `AsyncMemoryManager.perform_memory_maintenance`
(`memory/memory_manager.py:432`): compress with a 30-day threshold, then
archive with a 90-day threshold; returns the new table with the two
counts. -/
def perform_memory_maintenance (db : MemDb) (now : Nat) :
    MemDb × Nat × Nat :=
  let c := AsyncSQLiteMemory.compress_old_memories db now 30
  let a := AsyncSQLiteMemory.archive_old_memories c.1 now 90
  (a.1, c.2, a.2)

end AsyncMemoryManager

/-- A normal operation of the memory subsystem, as invoked through the two
façades: save, blocking get, non-blocking get, clear, compress, archive,
stats. -/
inductive MemOp where
  | save (user_id content : String) (embedding : Option (List ℝ))
      (metadata : Option String) (category : String)
  | getBlocking (user_id : String) (limit : Nat) (category : Option String)
  | getAsync (user_id : String) (limit : Nat) (category : Option String)
  | clear (user_id : String)
  | compress (days_threshold : Nat)
  | archive (days_threshold : Nat)
  | stats (user_id : String)

/-- The state transition each operation performs on the `memories` table.
`now` is the wall-clock instant and `nextId` the `AUTOINCREMENT` id used by
a save.  Read-only operations (blocking get, stats) leave the table
unchanged; the async get additionally applies its access-tracking update. -/
def applyOp (op : MemOp) (db : MemDb) (now nextId : Nat) : MemDb :=
  match op with
  | .save u c e m cat => (SQLiteMemory.save_memory db u c e m cat nextId now).1
  | .getBlocking _ _ _ => db
  | .getAsync u l cat => (AsyncSQLiteMemory.get_memories db u l cat now).2
  | .clear u => (SQLiteMemory.clear_user_memories db u).1
  | .compress d => (AsyncSQLiteMemory.compress_old_memories db now d).1
  | .archive d => (AsyncSQLiteMemory.archive_old_memories db now d).1
  | .stats _ => db

/-- Runs a sequence of operations; each list entry carries the operation,
the wall-clock `now` of the call, and the `AUTOINCREMENT` id a save would
use at that point. -/
def runOps : List (MemOp × Nat × Nat) → MemDb → MemDb
  | [], db => db
  | step :: rest, db => runOps rest (applyOp step.1 db step.2.1 step.2.2)

/-- Wellformedness of a schedule of operations: SQLite's `AUTOINCREMENT`
hands out strictly increasing ids, so each step's fresh id is at least the
running bound and the bound then moves past it. -/
def SchedOk : List (MemOp × Nat × Nat) → Nat → Prop
  | [], _ => True
  | step :: rest, bound => bound ≤ step.2.2 ∧ SchedOk rest (step.2.2 + 1)

/-- The non-access-tracking fields of a row: everything except
`access_count` and `last_accessed`. -/
def coreOf (r : MemRow) :
    Nat × String × String × Option (List ℝ) × Nat × Option String ×
      String × Bool × Bool :=
  (r.id, r.user_id, r.content, r.embedding, r.timestamp, r.metadata,
   r.category, r.compressed, r.archived)

/-- A concrete archived row, used as test data for the counterexamples and
witnesses below. -/
def exArchivedRow : MemRow :=
  { id := 1, user_id := "u", content := "old entry", embedding := none,
    timestamp := 5, metadata := none, category := "general",
    compressed := false, archived := true, access_count := 0,
    last_accessed := none }

/-- A concrete unarchived row for user `"u"`. -/
def exPlainRow : MemRow :=
  { id := 3, user_id := "u", content := "note", embedding := none,
    timestamp := 9, metadata := none, category := "general",
    compressed := false, archived := false, access_count := 0,
    last_accessed := none }

/-- A concrete row belonging to user `"v"`. -/
def exRowV : MemRow :=
  { id := 2, user_id := "v", content := "kept", embedding := none,
    timestamp := 3, metadata := none, category := "general",
    compressed := false, archived := false, access_count := 1,
    last_accessed := some 3 }

theorem mem_selectQuery {db : MemDb} {p : MemRow → Bool} {limit : Nat}
    {r : MemRow} (h : r ∈ selectQuery db p limit) : r ∈ db ∧ p r = true := by
  have h1 : r ∈ (db.filter p).insertionSort byTimestampDesc :=
    List.take_subset _ _ h
  rw [List.mem_insertionSort] at h1
  exact ⟨(List.mem_filter.1 h1).1, (List.mem_filter.1 h1).2⟩

theorem length_selectQuery_le (db : MemDb) (p : MemRow → Bool)
    (limit : Nat) : (selectQuery db p limit).length ≤ limit := by
  simp [selectQuery]

theorem sorted_selectQuery (db : MemDb) (p : MemRow → Bool) (limit : Nat) :
    (selectQuery db p limit).Sorted byTimestampDesc :=
  List.Pairwise.sublist (List.take_sublist _ _)
    (List.sorted_insertionSort byTimestampDesc (db.filter p))

theorem categoryPasses_eq {cat : Option String} {r : MemRow} {c : String}
    (h : categoryPasses cat r = true) (hc : cat = some c) (hne : c ≠ "") :
    r.category = c := by
  subst hc
  simp only [categoryPasses, if_neg hne, beq_iff_eq] at h
  exact h

/-- Claim C2 — counterexample.  On a store holding a single archived row for
user `"u"`, the legacy blocking `get_memories` returns that archived row,
so the claim "the store's get operation returns only rows with
`archived=false`" fails on `SQLiteMemory.get_memories`
(`memory/sqlite_memory.py:126`), whose query has no `archived` condition. -/
theorem get_memories_returns_archived_row_cx :
    ((SQLiteMemory.get_memories [exArchivedRow] "u" 10 none).all
      (fun r => !r.archived)) = false := by
  rfl

/-- Claim C2 (amended): the non-blocking `get_memories` (and the refactored
blocking form in `docy_search/memory/sqlite_memory.py`) return only rows of
the queried user with `archived = false`, satisfy the category equality
filter whenever a non-empty category is given, are sorted by `timestamp`
descending, and contain at most `limit` rows; the legacy blocking form
guarantees the same except the `archived` filter. -/
theorem get_memories_query_spec (db : MemDb) (uid : String) (limit : Nat)
    (cat : Option String) (now : Nat) :
    (∀ r ∈ (AsyncSQLiteMemory.get_memories db uid limit cat now).1,
       r ∈ db ∧ r.archived = false ∧ r.user_id = uid ∧
       ∀ c, cat = some c → c ≠ "" → r.category = c) ∧
    (AsyncSQLiteMemory.get_memories db uid limit cat now).1.length ≤ limit ∧
    ((AsyncSQLiteMemory.get_memories db uid limit cat now).1).Sorted
      byTimestampDesc ∧
    (∀ r ∈ DocySQLiteMemory.get_memories db uid limit cat,
       r ∈ db ∧ r.archived = false ∧ r.user_id = uid ∧
       ∀ c, cat = some c → c ≠ "" → r.category = c) ∧
    (DocySQLiteMemory.get_memories db uid limit cat).length ≤ limit ∧
    (DocySQLiteMemory.get_memories db uid limit cat).Sorted byTimestampDesc ∧
    (∀ r ∈ SQLiteMemory.get_memories db uid limit cat,
       r ∈ db ∧ r.user_id = uid ∧
       ∀ c, cat = some c → c ≠ "" → r.category = c) ∧
    (SQLiteMemory.get_memories db uid limit cat).length ≤ limit ∧
    (SQLiteMemory.get_memories db uid limit cat).Sorted byTimestampDesc := by
  have harch : ∀ r ∈ selectQuery db
      (fun r => r.user_id == uid && !r.archived && categoryPasses cat r)
      limit, r ∈ db ∧ r.archived = false ∧ r.user_id = uid ∧
      ∀ c, cat = some c → c ≠ "" → r.category = c := by
    intro r hr
    obtain ⟨hmem, hp⟩ := mem_selectQuery hr
    simp only [Bool.and_eq_true, beq_iff_eq, Bool.not_eq_true'] at hp
    exact ⟨hmem, hp.1.2, hp.1.1, fun c hc hne =>
      categoryPasses_eq hp.2 hc hne⟩
  refine ⟨harch, length_selectQuery_le _ _ _, sorted_selectQuery _ _ _,
    harch, length_selectQuery_le _ _ _, sorted_selectQuery _ _ _,
    ?_, length_selectQuery_le _ _ _, sorted_selectQuery _ _ _⟩
  intro r hr
  obtain ⟨hmem, hp⟩ := mem_selectQuery hr
  simp only [Bool.and_eq_true, beq_iff_eq] at hp
  exact ⟨hmem, hp.1, fun c hc hne => categoryPasses_eq hp.2 hc hne⟩

/-- Claim C2 — witness: the amended theorem at concrete inputs. -/
theorem get_memories_query_spec_witness :
    (SQLiteMemory.get_memories [] "u" 5 none).length ≤ 5 :=
  (get_memories_query_spec [] "u" 5 none 0).2.2.2.2.2.2.2.1

/-- Claim C9: `clear_user_memories` returns the number of rows that existed for
the user, and a `retrieve_memories` for that user issued on the cleared
store returns the fixed sentinel string `"No previous interactions
found."`. -/
theorem clear_count_and_retrieve_sentinel (db : MemDb) (uid : String)
    (limit : Nat) (cat : Option String) :
    (SQLiteMemory.clear_user_memories db uid).2
      = db.countP (fun r => r.user_id == uid) ∧
    MemoryManager.retrieve_memories
      (SQLiteMemory.clear_user_memories db uid).1 uid limit cat
      = "No previous interactions found." := by
  constructor
  · simp [SQLiteMemory.clear_user_memories, List.countP_eq_length_filter]
  · have hfil : ((SQLiteMemory.clear_user_memories db uid).1).filter
        (fun r => r.user_id == uid && categoryPasses cat r) = [] := by
      rw [List.filter_eq_nil_iff]
      intro r hr
      have h1 : (!(r.user_id == uid)) = true :=
        (List.mem_filter.1 hr).2
      simp only [Bool.not_eq_eq_eq_not, Bool.not_true] at h1
      simp [h1]
    have hget : SQLiteMemory.get_memories
        (SQLiteMemory.clear_user_memories db uid).1 uid limit cat = [] := by
      simp [SQLiteMemory.get_memories, selectQuery, hfil]
    simp [MemoryManager.retrieve_memories, hget,
      MemoryManager.noMemoriesSentinel]

/-- Claim C10: clearing user `u` leaves the rows of any other user `v` exactly
as they were — same rows, same order, every field unchanged, none
deleted — in both the blocking and the non-blocking store. -/
theorem clear_frame_other_users (db : MemDb) (u v : String) (huv : u ≠ v) :
    (SQLiteMemory.clear_user_memories db u).1.filter
        (fun r => r.user_id == v)
      = db.filter (fun r => r.user_id == v) ∧
    (AsyncSQLiteMemory.clear_user_memories db u).1.filter
        (fun r => r.user_id == v)
      = db.filter (fun r => r.user_id == v) := by
  have key : ∀ dbx : MemDb,
      (dbx.filter (fun r => !(r.user_id == u))).filter
        (fun r => r.user_id == v) = dbx.filter (fun r => r.user_id == v) := by
    intro dbx
    rw [List.filter_filter]
    apply List.filter_congr
    intro r _
    cases hv : (r.user_id == v) with
    | false => simp
    | true =>
      have hvv : r.user_id = v := by rwa [beq_iff_eq] at hv
      have hu : (r.user_id == u) = false := by
        rw [beq_eq_false_iff_ne, hvv]
        exact fun hh => huv hh.symm
      simp [hu]
  exact ⟨key db, key db⟩

/-- Claim C10 — witness: the frame theorem at a concrete store. -/
theorem clear_frame_other_users_witness :
    (SQLiteMemory.clear_user_memories [exRowV] "u").1.filter
        (fun r => r.user_id == "v")
      = [exRowV].filter (fun r => r.user_id == "v") :=
  (clear_frame_other_users [exRowV] "u" "v" (by decide)).1

/-- Claim C5 — counterexample.  A save with an empty `user_id` is not rejected:
`SQLiteMemory.save_memory` (`memory/sqlite_memory.py:92`) performs no
argument validation, so the `INSERT` goes through and the stored state
changes (the claim asserts that nothing is written). -/
theorem save_empty_user_id_inserts_cx :
    (SQLiteMemory.save_memory [] "" "hello" none none "general" 1 0).1
      = [{ id := 1, user_id := "", content := "hello", embedding := none,
           timestamp := 0, metadata := none, category := "general",
           compressed := false, archived := false, access_count := 0,
           last_accessed := none }] := by
  rfl

/-- Claim C5 (amended): the Record Store performs no argument validation at all.
A save — including one with an empty `user_id` or empty `content` — always
appends exactly one row holding the given values (so the insert is atomic:
one row, no partial write, no other row touched) and returns the fresh id.
This holds for both store forms. -/
theorem save_memory_no_validation (db : MemDb) (uid content : String)
    (e : Option (List ℝ)) (m : Option String) (cat : String)
    (nextId now : Nat) :
    SQLiteMemory.save_memory db uid content e m cat nextId now
      = (db ++ [{ id := nextId, user_id := uid, content := content,
                  embedding := truthyEmbedding e, timestamp := now,
                  metadata := m, category := cat, compressed := false,
                  archived := false, access_count := 0,
                  last_accessed := none }], nextId) ∧
    AsyncSQLiteMemory.save_memory db uid content e m cat nextId now
      = (db ++ [{ id := nextId, user_id := uid, content := content,
                  embedding := truthyEmbedding e, timestamp := now,
                  metadata := m, category := cat, compressed := false,
                  archived := false, access_count := 0,
                  last_accessed := none }], nextId) ∧
    (SQLiteMemory.save_memory db "" "" e m cat nextId now).1.length
      = db.length + 1 := by
  refine ⟨rfl, rfl, ?_⟩
  simp [SQLiteMemory.save_memory]

/-- Claim C1 — counterexample.  The two forms differ in both respects the
claim rules out.  Returned rows: over the same stored data (a single
archived row for user `"u"`), the blocking `SQLiteMemory.get_memories`
returns the row while the non-blocking `AsyncSQLiteMemory.get_memories`
returns nothing, because only the async query filters `archived = FALSE`.
Persisted state: on a store holding one unarchived row for `"u"`, the
non-blocking get leaves behind a table different from the one it read
(the returned row's `access_count` is incremented), while the blocking
get writes nothing. -/
theorem get_memories_sync_async_differ_cx :
    (SQLiteMemory.get_memories [exArchivedRow] "u" 10 none
      ≠ (AsyncSQLiteMemory.get_memories [exArchivedRow] "u" 10 none 0).1) ∧
    ((AsyncSQLiteMemory.get_memories [exPlainRow] "u" 10 none 7).2
      ≠ [exPlainRow]) := by
  constructor
  · have h1 : SQLiteMemory.get_memories [exArchivedRow] "u" 10 none
        = [exArchivedRow] := by rfl
    have h2 : (AsyncSQLiteMemory.get_memories [exArchivedRow] "u" 10 none
        0).1 = [] := by rfl
    rw [h1, h2]
    exact List.cons_ne_nil _ _
  · intro h
    have h3 := congrArg (List.map (fun r => r.access_count)) h
    have h4 : ((AsyncSQLiteMemory.get_memories [exPlainRow] "u" 10 none
        7).2).map (fun r => r.access_count) = [1] := by rfl
    have h5 : [exPlainRow].map (fun r => r.access_count) = [0] := by rfl
    rw [h4, h5] at h3
    exact absurd h3 (by decide)

/-- Claim C1 (amended): the two forms are not interchangeable — the legacy
blocking get returns archived rows that the non-blocking get excludes,
and the non-blocking get persists an access-tracking update the blocking
get does not perform.  What holds instead, for every `user_id`, `limit`
and `category` over the same stored data: (1) the refactored
(docy_search) blocking form and the non-blocking form always return the
same record set; (2) unconditionally, the non-blocking form's persistence
effect is exactly access tracking — every stored row keeps its `id`,
`user_id`, `content`, `embedding`, `timestamp`, `metadata`, `category`,
`compressed` and `archived` fields, each row whose id was returned gets
`access_count` incremented by one and `last_accessed` set to the call
instant, and every other row is unchanged; (3) the legacy blocking form
returns the same record set as the non-blocking form whenever none of the
user's stored rows is archived. -/
theorem get_memories_sync_async_relation (db : MemDb) (uid : String)
    (limit : Nat) (cat : Option String) (now : Nat) :
    DocySQLiteMemory.get_memories db uid limit cat
      = (AsyncSQLiteMemory.get_memories db uid limit cat now).1 ∧
    ((AsyncSQLiteMemory.get_memories db uid limit cat now).2).map coreOf
      = db.map coreOf ∧
    List.Forall₂ (fun r r2 =>
      ((((AsyncSQLiteMemory.get_memories db uid limit cat now).1.map
            (·.id)).contains r.id) = true →
        r2 = { r with access_count := r.access_count + 1,
                      last_accessed := some now }) ∧
      ((((AsyncSQLiteMemory.get_memories db uid limit cat now).1.map
            (·.id)).contains r.id) = false →
        r2 = r))
      db ((AsyncSQLiteMemory.get_memories db uid limit cat now).2) ∧
    ((∀ r ∈ db, r.user_id = uid → r.archived = false) →
      SQLiteMemory.get_memories db uid limit cat
        = (AsyncSQLiteMemory.get_memories db uid limit cat now).1) := by
  refine ⟨rfl, ?_, ?_, ?_⟩
  · rw [AsyncSQLiteMemory.get_memories, List.map_map]
    apply List.map_congr_left
    intro r _
    show coreOf _ = coreOf r
    beta_reduce
    split <;> rfl
  · have hdef : (AsyncSQLiteMemory.get_memories db uid limit cat now).2
        = db.map (fun r =>
            if (((AsyncSQLiteMemory.get_memories db uid limit cat
                  now).1.map (·.id)).contains r.id) then
              { r with access_count := r.access_count + 1,
                       last_accessed := some now }
            else r) := rfl
    rw [hdef]
    have key : ∀ l : MemDb, List.Forall₂ (fun r r2 =>
        ((((AsyncSQLiteMemory.get_memories db uid limit cat now).1.map
              (·.id)).contains r.id) = true →
          r2 = { r with access_count := r.access_count + 1,
                        last_accessed := some now }) ∧
        ((((AsyncSQLiteMemory.get_memories db uid limit cat now).1.map
              (·.id)).contains r.id) = false →
          r2 = r))
        l (l.map (fun r =>
            if (((AsyncSQLiteMemory.get_memories db uid limit cat
                  now).1.map (·.id)).contains r.id) then
              { r with access_count := r.access_count + 1,
                       last_accessed := some now }
            else r)) := by
      intro l
      induction l with
      | nil => exact List.Forall₂.nil
      | cons a t ih =>
        refine List.Forall₂.cons ⟨?_, ?_⟩ ih
        · intro hc2
          exact if_pos hc2
        · intro hc2
          refine if_neg ?_
          rw [hc2]
          exact Bool.false_ne_true
    exact key db
  · intro h
    have hfil : db.filter (fun r => r.user_id == uid && categoryPasses cat r)
        = db.filter
            (fun r => r.user_id == uid && !r.archived
              && categoryPasses cat r) := by
      apply List.filter_congr
      intro r hr
      cases hu : (r.user_id == uid) with
      | false => simp
      | true =>
        have harch : r.archived = false := h r hr (by rwa [beq_iff_eq] at hu)
        simp [harch]
    show selectQuery db _ limit = selectQuery db _ limit
    rw [selectQuery, selectQuery, hfil]

/-- Claim C1 — witness: the conditional conjunct of the amended theorem at
a concrete one-row store with no archived rows. -/
theorem get_memories_sync_async_relation_witness :
    SQLiteMemory.get_memories [exPlainRow] "u" 10 none
      = (AsyncSQLiteMemory.get_memories [exPlainRow] "u" 10 none 7).1 :=
  (get_memories_sync_async_relation [exPlainRow] "u" 10 none 7).2.2.2 (by
    intro r hr _
    rw [List.mem_singleton] at hr
    subst hr
    rfl)

theorem compressRow_of_neg {now d : Nat} {r : MemRow}
    (h : AsyncSQLiteMemory.compressCond now d r = false) :
    AsyncSQLiteMemory.compressRow now d r = r := by
  simp [AsyncSQLiteMemory.compressRow, h]

theorem archiveRow_of_neg {now d : Nat} {r : MemRow}
    (h : AsyncSQLiteMemory.archiveCond now d r = false) :
    AsyncSQLiteMemory.archiveRow now d r = r := by
  simp [AsyncSQLiteMemory.archiveRow, h]

theorem compressCond_compressRow (now d : Nat) (r : MemRow) :
    AsyncSQLiteMemory.compressCond now d
      (AsyncSQLiteMemory.compressRow now d r) = false := by
  cases h : AsyncSQLiteMemory.compressCond now d r with
  | false => rw [compressRow_of_neg h, h]
  | true =>
    have hrow : AsyncSQLiteMemory.compressRow now d r
        = { r with compressed := true,
                   content := r.content.take 500 ++ "...[compressed]" } := by
      simp [AsyncSQLiteMemory.compressRow, h]
    rw [hrow]
    simp [AsyncSQLiteMemory.compressCond]

theorem archiveCond_archiveRow (now d : Nat) (r : MemRow) :
    AsyncSQLiteMemory.archiveCond now d
      (AsyncSQLiteMemory.archiveRow now d r) = false := by
  cases h : AsyncSQLiteMemory.archiveCond now d r with
  | false => rw [archiveRow_of_neg h, h]
  | true =>
    have hrow : AsyncSQLiteMemory.archiveRow now d r
        = { r with archived := true } := by
      simp [AsyncSQLiteMemory.archiveRow, h]
    rw [hrow]
    simp [AsyncSQLiteMemory.archiveCond]

theorem compressCond_archiveRow (now d now2 d2 : Nat) (r : MemRow) :
    AsyncSQLiteMemory.compressCond now d
      (AsyncSQLiteMemory.archiveRow now2 d2 r)
      = AsyncSQLiteMemory.compressCond now d r := by
  cases h : AsyncSQLiteMemory.archiveCond now2 d2 r with
  | false => rw [archiveRow_of_neg h]
  | true =>
    have hrow : AsyncSQLiteMemory.archiveRow now2 d2 r
        = { r with archived := true } := by
      simp [AsyncSQLiteMemory.archiveRow, h]
    rw [hrow]
    simp [AsyncSQLiteMemory.compressCond]

theorem archiveCond_compressRow (now d now2 d2 : Nat) (r : MemRow) :
    AsyncSQLiteMemory.archiveCond now d
      (AsyncSQLiteMemory.compressRow now2 d2 r)
      = AsyncSQLiteMemory.archiveCond now d r := by
  cases h : AsyncSQLiteMemory.compressCond now2 d2 r with
  | false => rw [compressRow_of_neg h]
  | true =>
    have hrow : AsyncSQLiteMemory.compressRow now2 d2 r
        = { r with compressed := true,
                   content := r.content.take 500 ++ "...[compressed]" } := by
      simp [AsyncSQLiteMemory.compressRow, h]
    rw [hrow]
    simp [AsyncSQLiteMemory.archiveCond]

theorem compress_fixed_of_cond_false {db : MemDb} {now d : Nat}
    (h : ∀ r ∈ db, AsyncSQLiteMemory.compressCond now d r = false) :
    AsyncSQLiteMemory.compress_old_memories db now d = (db, 0) := by
  rw [AsyncSQLiteMemory.compress_old_memories]
  have hmap : db.map (AsyncSQLiteMemory.compressRow now d) = db :=
    (List.map_congr_left fun r hr => compressRow_of_neg (h r hr)).trans
      (List.map_id db)
  have hfil : db.filter (AsyncSQLiteMemory.compressCond now d) = [] :=
    List.filter_eq_nil_iff.2 fun r hr => by simp [h r hr]
  rw [hmap, hfil]
  rfl

theorem archive_fixed_of_cond_false {db : MemDb} {now d : Nat}
    (h : ∀ r ∈ db, AsyncSQLiteMemory.archiveCond now d r = false) :
    AsyncSQLiteMemory.archive_old_memories db now d = (db, 0) := by
  rw [AsyncSQLiteMemory.archive_old_memories]
  have hmap : db.map (AsyncSQLiteMemory.archiveRow now d) = db :=
    (List.map_congr_left fun r hr => archiveRow_of_neg (h r hr)).trans
      (List.map_id db)
  have hfil : db.filter (AsyncSQLiteMemory.archiveCond now d) = [] :=
    List.filter_eq_nil_iff.2 fun r hr => by simp [h r hr]
  rw [hmap, hfil]
  rfl

/-- Claim C7: with no intervening activity (same clock instant, no saves or
retrievals), running `compress_old_memories` a second time compresses zero
records and leaves the table unchanged, and likewise the full maintenance
routine (compress with the 30-day threshold, then archive with the 90-day
threshold) run a second time compresses and archives zero records and
leaves the table unchanged: the first run's result is a fixed point. -/
theorem compress_and_maintenance_idempotent :
    (∀ (db : MemDb) (now d : Nat),
      AsyncSQLiteMemory.compress_old_memories
          (AsyncSQLiteMemory.compress_old_memories db now d).1 now d
        = ((AsyncSQLiteMemory.compress_old_memories db now d).1, 0)) ∧
    (∀ (db : MemDb) (now : Nat),
      AsyncMemoryManager.perform_memory_maintenance
          (AsyncMemoryManager.perform_memory_maintenance db now).1 now
        = ((AsyncMemoryManager.perform_memory_maintenance db now).1,
           0, 0)) := by
  constructor
  · intro db now d
    apply compress_fixed_of_cond_false
    intro r hr
    rw [AsyncSQLiteMemory.compress_old_memories] at hr
    obtain ⟨s, _, rfl⟩ := List.mem_map.1 hr
    exact compressCond_compressRow now d s
  · intro db now
    have hmem : ∀ r ∈ (AsyncMemoryManager.perform_memory_maintenance
        db now).1, ∃ s : MemRow, r = AsyncSQLiteMemory.archiveRow now 90
          (AsyncSQLiteMemory.compressRow now 30 s) := by
      intro r hr
      rw [AsyncMemoryManager.perform_memory_maintenance] at hr
      simp only [AsyncSQLiteMemory.archive_old_memories,
        AsyncSQLiteMemory.compress_old_memories, List.map_map,
        List.mem_map] at hr
      obtain ⟨s, _, rfl⟩ := hr
      exact ⟨s, rfl⟩
    have hcomp : AsyncSQLiteMemory.compress_old_memories
        (AsyncMemoryManager.perform_memory_maintenance db now).1 now 30
        = ((AsyncMemoryManager.perform_memory_maintenance db now).1, 0) := by
      apply compress_fixed_of_cond_false
      intro r hr
      obtain ⟨s, rfl⟩ := hmem r hr
      rw [compressCond_archiveRow]
      exact compressCond_compressRow now 30 s
    have harch : AsyncSQLiteMemory.archive_old_memories
        (AsyncMemoryManager.perform_memory_maintenance db now).1 now 90
        = ((AsyncMemoryManager.perform_memory_maintenance db now).1, 0) := by
      apply archive_fixed_of_cond_false
      intro r hr
      obtain ⟨s, rfl⟩ := hmem r hr
      exact archiveCond_archiveRow now 90 _
    rw [AsyncMemoryManager.perform_memory_maintenance, hcomp]
    simp only
    rw [harch]

theorem mem_applyOp {op : MemOp} {db : MemDb} {now nextId : Nat}
    {r2 : MemRow} (h : r2 ∈ applyOp op db now nextId) :
    r2.id = nextId ∨
      ∃ s ∈ db, r2.id = s.id ∧
        (s.archived = true → r2.archived = true) := by
  cases op with
  | save u c e m cat =>
    rw [applyOp, SQLiteMemory.save_memory] at h
    rcases List.mem_append.1 h with h2 | h2
    · exact Or.inr ⟨r2, h2, rfl, fun ha => ha⟩
    · rw [List.mem_singleton] at h2
      subst h2
      exact Or.inl rfl
  | getBlocking u l cat =>
    exact Or.inr ⟨r2, h, rfl, fun ha => ha⟩
  | getAsync u l cat =>
    rw [applyOp, AsyncSQLiteMemory.get_memories] at h
    simp only [List.mem_map] at h
    obtain ⟨s, hs, rfl⟩ := h
    refine Or.inr ⟨s, hs, ?_, ?_⟩ <;> beta_reduce <;> split <;> simp
  | clear u =>
    rw [applyOp, SQLiteMemory.clear_user_memories] at h
    exact Or.inr ⟨r2, (List.mem_filter.1 h).1, rfl, fun ha => ha⟩
  | compress d =>
    rw [applyOp, AsyncSQLiteMemory.compress_old_memories] at h
    simp only [List.mem_map] at h
    obtain ⟨s, hs, rfl⟩ := h
    refine Or.inr ⟨s, hs, ?_, ?_⟩ <;>
      rw [AsyncSQLiteMemory.compressRow] <;> split <;> simp
  | archive d =>
    rw [applyOp, AsyncSQLiteMemory.archive_old_memories] at h
    simp only [List.mem_map] at h
    obtain ⟨s, hs, rfl⟩ := h
    refine Or.inr ⟨s, hs, ?_, ?_⟩ <;>
      rw [AsyncSQLiteMemory.archiveRow] <;> split <;> simp
  | stats u =>
    exact Or.inr ⟨r2, h, rfl, fun ha => ha⟩

theorem runOps_archived_inv (ops : List (MemOp × Nat × Nat)) :
    ∀ (db : MemDb) (bound i : Nat), SchedOk ops bound →
      (∀ r ∈ db, r.id < bound) → i < bound →
      (∀ r ∈ db, r.id = i → r.archived = true) →
      ∀ r ∈ runOps ops db, r.id = i → r.archived = true := by
  induction ops with
  | nil => intro db bound i _ _ _ hinv r hr; exact hinv r hr
  | cons step rest ih =>
    intro db bound i hs hdb hi hinv r hr
    obtain ⟨hle, hs2⟩ := hs
    refine ih (applyOp step.1 db step.2.1 step.2.2) (step.2.2 + 1) i hs2
      ?_ (by omega) ?_ r hr
    · intro r2 hr2
      rcases mem_applyOp hr2 with hid | ⟨s, hsmem, hid, _⟩
      · omega
      · have := hdb s hsmem
        omega
    · intro r2 hr2 hid2
      rcases mem_applyOp hr2 with hid | ⟨s, hsmem, hid, himp⟩
      · exfalso
        omega
      · exact himp (hinv s hsmem (hid ▸ hid2))

/-- Claim C8: the `archived` flag is monotone.  Over any wellformed schedule of
normal operations (saves, blocking and non-blocking gets, clears,
compressions, archivals, stats) applied to a table with distinct ids, a
record whose `archived` flag is true stays archived in every row that
still carries its id: no operation ever resets `archived` to false, and
deletion (`clear`) is the only way the record disappears. -/
theorem archived_flag_monotone (ops : List (MemOp × Nat × Nat))
    (db : MemDb) (bound : Nat) (hdb : ∀ r ∈ db, r.id < bound)
    (hs : SchedOk ops bound) (hnodup : (db.map MemRow.id).Nodup)
    (r : MemRow) (hr : r ∈ db) (ha : r.archived = true) :
    ∀ r2 ∈ runOps ops db, r2.id = r.id → r2.archived = true := by
  refine runOps_archived_inv ops db bound r.id hs hdb (hdb r hr) ?_
  intro r2 hr2 hid
  have : r2 = r := List.inj_on_of_nodup_map hnodup hr2 hr hid
  rwa [this]

/-- Claim C8 — witness: the monotonicity theorem at a concrete archived row and
a one-step schedule. -/
theorem archived_flag_monotone_witness : exArchivedRow.archived = true :=
  archived_flag_monotone [(MemOp.stats "w", 0, 5)] [exArchivedRow] 2
    (by intro r hr; rw [List.mem_singleton] at hr; subst hr; decide)
    ⟨by decide, trivial⟩ (by simp [exArchivedRow])
    exArchivedRow (List.mem_singleton.mpr rfl) rfl
    exArchivedRow (by simp [runOps, applyOp]) rfl

/-- Claim C3: when every one of the three embedding attempts fails, the retry
loop returns "no embedding" (`none`) instead of propagating the failure,
having slept `2 ^ 0` and `2 ^ 1` time units between the consecutive
attempts (no sleep after the final attempt); and a manager-level save
under the same failing provider still persists exactly one record, with a
null embedding.  (`max_retries` defaults to 3.) -/
theorem embed_with_retry_exhaustion
    (oracle : AsyncMemoryManager.AttemptOracle)
    (h : ∀ n, n < 3 → oracle n = none) :
    AsyncMemoryManager.generate_embedding_with_retry oracle
      = (none, [2 ^ 0, 2 ^ 1]) ∧
    ∀ (db : MemDb) (uid content : String) (m : Option String)
      (cat : String) (nextId now : Nat),
      (AsyncMemoryManager.save_memory db uid content oracle m cat
          nextId now).1
        = db ++ [{ id := nextId, user_id := uid, content := content,
                   embedding := none, timestamp := now,
                   metadata :=
                     some (AsyncMemoryManager.metadataStamp m now),
                   category := cat, compressed := false, archived := false,
                   access_count := 0, last_accessed := none }] := by
  have l2 : AsyncMemoryManager.retryLoop oracle 3 2 = (none, []) := by
    rw [AsyncMemoryManager.retryLoop]
    simp [h 2 (by omega)]
  have l1 : AsyncMemoryManager.retryLoop oracle 3 1 = (none, [2]) := by
    rw [AsyncMemoryManager.retryLoop]
    simp [h 1 (by omega), l2]
  have l0 : AsyncMemoryManager.retryLoop oracle 3 0 = (none, [1, 2]) := by
    rw [AsyncMemoryManager.retryLoop]
    simp [h 0 (by omega), l1]
  have hgen : AsyncMemoryManager.generate_embedding_with_retry oracle
      = (none, [1, 2]) := l0
  constructor
  · rw [hgen]
    norm_num
  · intro db uid content m cat nextId now
    rw [AsyncMemoryManager.save_memory]
    simp only [hgen]
    rfl

/-- Claim C3 — witness: the exhaustion theorem at the always-failing provider. -/
theorem embed_with_retry_exhaustion_witness :
    AsyncMemoryManager.generate_embedding_with_retry (fun _ => none)
      = (none, [2 ^ 0, 2 ^ 1]) :=
  (embed_with_retry_exhaustion (fun _ => none) (fun _ _ => rfl)).1

theorem zipWith_mul_self (v : List ℝ) :
    List.zipWith (· * ·) v v = v.map (fun x => x * x) := by
  induction v with
  | nil => rfl
  | cons x t ih => simp [ih]

theorem dotp_self_nonneg (v : List ℝ) : 0 ≤ dotp v v := by
  rw [dotp, zipWith_mul_self]
  apply List.sum_nonneg
  intro x hx
  obtain ⟨y, _, rfl⟩ := List.mem_map.1 hx
  exact mul_self_nonneg y

theorem dotp_self_pos {v : List ℝ} (h : ∃ x ∈ v, x ≠ 0) :
    0 < dotp v v := by
  induction v with
  | nil =>
    obtain ⟨x, hx, _⟩ := h
    exact absurd hx (List.not_mem_nil x)
  | cons a t ih =>
    have hdc : dotp (a :: t) (a :: t) = a * a + dotp t t := by
      rw [dotp, dotp]
      simp
    rw [hdc]
    obtain ⟨x, hx, hxne⟩ := h
    rcases List.mem_cons.1 hx with rfl | hxt
    · have h1 : 0 < x * x := mul_self_pos.mpr hxne
      have h2 := dotp_self_nonneg t
      linarith
    · have h1 := ih ⟨x, hxt, hxne⟩
      have h2 := mul_self_nonneg a
      linarith

theorem normOf_ne_zero_not_empty {v : List ℝ} (h : normOf v ≠ 0) :
    v.isEmpty = false := by
  cases v with
  | nil =>
    exfalso
    apply h
    simp [normOf, dotp]
  | cons x t => rfl

/-- Claim C6: the cosine similarity of the facade computes
`dot(a,b) / (norm(a) * norm(b))` whenever both norms are nonzero, returns
`0` whenever either input has zero norm (so it never divides by zero),
and equals `1` on any nonzero vector paired with itself.  Python floats
are modelled as real numbers. -/
theorem calculate_similarity_spec :
    (∀ a b : List ℝ, normOf a ≠ 0 → normOf b ≠ 0 →
       MemoryManager.calculate_similarity a b
         = dotp a b / (normOf a * normOf b)) ∧
    (∀ a b : List ℝ, normOf a = 0 ∨ normOf b = 0 →
       MemoryManager.calculate_similarity a b = 0) ∧
    (∀ v : List ℝ, (∃ x ∈ v, x ≠ 0) →
       MemoryManager.calculate_similarity v v = 1) := by
  refine ⟨?_, ?_, ?_⟩
  · intro a b h1 h2
    rw [MemoryManager.calculate_similarity]
    rw [normOf_ne_zero_not_empty h1, normOf_ne_zero_not_empty h2]
    simp only [Bool.or_self, Bool.false_eq_true, if_false]
    exact if_neg (not_or.mpr ⟨h1, h2⟩)
  · intro a b h
    rw [MemoryManager.calculate_similarity]
    cases he : (a.isEmpty || b.isEmpty) with
    | true => simp
    | false =>
      simp only [Bool.false_eq_true, if_false]
      exact if_pos h
  · intro v hex
    have hpos : 0 < dotp v v := dotp_self_pos hex
    have hnorm : normOf v ≠ 0 :=
      ne_of_gt (Real.sqrt_pos.mpr hpos)
    rw [MemoryManager.calculate_similarity]
    rw [normOf_ne_zero_not_empty hnorm]
    simp only [Bool.or_self, Bool.false_eq_true, if_false]
    rw [if_neg (not_or.mpr ⟨hnorm, hnorm⟩)]
    show dotp v v / (normOf v * normOf v) = 1
    rw [normOf, Real.mul_self_sqrt (dotp_self_nonneg v)]
    exact div_self (ne_of_gt hpos)

/-- Claim C6 — witness: the similarity spec at the concrete nonzero vector
`[1]`. -/
theorem calculate_similarity_spec_witness :
    MemoryManager.calculate_similarity [(1 : ℝ)] [(1 : ℝ)] = 1 :=
  calculate_similarity_spec.2.2 [(1 : ℝ)]
    ⟨1, List.mem_singleton.mpr rfl, one_ne_zero⟩

/-- Claim C4: `find_similar_memories` draws its candidates from the 100 most
recent records of the user (`get_memories(user_id, limit=100)`), skips
every record lacking an embedding, returns only records whose cosine
similarity to the query vector is at or above `threshold`, returns at most
`limit` records, and returns them in monotonically non-increasing
similarity order. -/
theorem find_similar_spec (db : MemDb) (uid : String) (q : List ℝ)
    (threshold : ℝ) (limit : Nat) :
    (∀ p ∈ MemoryManager.find_similar_memories db uid q threshold limit,
       p.1 ∈ SQLiteMemory.get_memories db uid 100 none ∧
       p.1.embedding ≠ none ∧ threshold ≤ p.2 ∧
       p.2 = MemoryManager.calculate_similarity q
         (p.1.embedding.getD [])) ∧
    (MemoryManager.find_similar_memories db uid q threshold
        limit).length ≤ limit ∧
    (MemoryManager.find_similar_memories db uid q threshold
        limit).Pairwise (fun a b => b.2 ≤ a.2) := by
  refine ⟨?_, ?_, ?_⟩
  · intro p hp
    simp only [MemoryManager.find_similar_memories] at hp
    have hp2 := List.take_subset _ _ hp
    rw [List.mem_insertionSort] at hp2
    rw [List.mem_filterMap] at hp2
    obtain ⟨m, hm, hf⟩ := hp2
    split at hf
    next => exact absurd hf (by simp)
    next e heq =>
      split at hf
      next => exact absurd hf (by simp)
      next =>
        split at hf
        next hts =>
          obtain rfl := (Option.some.inj hf).symm
          refine ⟨hm, ?_, hts, ?_⟩
          · rw [heq]
            simp
          · rw [heq]
            rfl
        next => exact absurd hf (by simp)
  · simp [MemoryManager.find_similar_memories]
  · simp only [MemoryManager.find_similar_memories]
    refine List.Pairwise.imp (fun hab => hab) ?_
    exact List.Pairwise.sublist (List.take_sublist _ _)
      (List.sorted_insertionSort MemoryManager.bySimilarityDesc _)

/-- Claim C4 — witness: the bound of the spec at concrete inputs. -/
theorem find_similar_spec_witness :
    (MemoryManager.find_similar_memories [] "u" [] 0 5).length ≤ 5 :=
  (find_similar_spec [] "u" [] 0 5).2.1

end DocySearch
